import Mathlib

/-!
Verification of the commit-message generator's core heuristics.

The development shallowly embeds the two source files of the repository:

* `scripts/analyze.py` — diff parsing (`parse_diff`), per-file classifier
  predicates (`is_style_only`, `is_refactor`, path-pattern and keyword
  matches), the per-file voting type detector (`detect_type`), the scope
  detector (`detect_scope`) and the summary generator (`detect_summary`);
* `scripts/run.py` — the whole-diff type detector (`detect_type_run`),
  the status-based scope detector (`detect_scope_run`) and the subject
  generator (`generate_subject`).

Texts are embedded as `List Char`.  Python's Unicode-aware character
classes (`\s`, `\w`, `str.lower`, `re.IGNORECASE`) are modelled over their
ASCII core, which is the domain all the fixed patterns and keywords of the
program live in.
-/

/-! ## Character helpers -/

/-- The 26 ASCII uppercase letters paired with their lowercase forms.
Models the ASCII core of Python's `str.lower`. -/
def upperLowerPairs : List (Char × Char) :=
  [('A', 'a'), ('B', 'b'), ('C', 'c'), ('D', 'd'), ('E', 'e'), ('F', 'f'),
   ('G', 'g'), ('H', 'h'), ('I', 'i'), ('J', 'j'), ('K', 'k'), ('L', 'l'),
   ('M', 'm'), ('N', 'n'), ('O', 'o'), ('P', 'p'), ('Q', 'q'), ('R', 'r'),
   ('S', 's'), ('T', 't'), ('U', 'u'), ('V', 'v'), ('W', 'w'), ('X', 'x'),
   ('Y', 'y'), ('Z', 'z')]

/-- Look a character up in an association list of characters. -/
def lookupChar (c : Char) : List (Char × Char) → Option Char
  | [] => none
  | p :: rest => if p.1 = c then some p.2 else lookupChar c rest

/-- Lowercase one character (ASCII model of Python's `str.lower`). -/
def lowerChar (c : Char) : Char :=
  match lookupChar c upperLowerPairs with
  | some l => l
  | none => c

/-- Lowercase a text characterwise: Python's `s.lower()`. -/
def lowerStr (s : List Char) : List Char := s.map lowerChar

/-- A character is an ASCII uppercase letter. -/
def isAsciiUpper (c : Char) : Bool := upperLowerPairs.any (fun p => p.1 = c)

/-- Whitespace characters (ASCII model of Python's regex class `\s`). -/
def isPySpace (c : Char) : Bool :=
  c = ' ' ∨ c = '\t' ∨ c = '\n' ∨ c = '\r' ∨ c = '\x0b' ∨ c = '\x0c'

/-- Word characters (ASCII model of Python's regex class `\w`). -/
def isWordChar (c : Char) : Bool := c.isAlphanum || c = '_'

/-! ## Generic text helpers -/

/-- Python's substring containment `pat in hay`. -/
def containsSub (hay pat : List Char) : Bool :=
  match hay with
  | [] => decide (pat = [])
  | _ :: rest => pat.isPrefixOf hay || containsSub rest pat

/-- Fuel-driven scanner for `countSub`: every step consumes at least one
character of `hay`, so fuel `hay.length` is always enough.  The fuel makes
the recursion structural, so the function evaluates by kernel reduction. -/
def countSubF (fuel : Nat) (hay pat : List Char) : Nat :=
  match fuel, hay with
  | 0, _ => 0
  | _ + 1, [] => 0
  | fuel + 1, c :: rest =>
    if pat ≠ [] ∧ pat.isPrefixOf (c :: rest) then
      countSubF fuel ((c :: rest).drop pat.length) pat + 1
    else
      countSubF fuel rest pat

/-- Python's `hay.count(pat)` for a non-empty pattern: the number of
non-overlapping occurrences, scanning left to right (0 when `pat` is
empty; the program only counts non-empty patterns). -/
def countSub (hay pat : List Char) : Nat := countSubF hay.length hay pat

/-- Characters Python's `str.splitlines` treats as line boundaries. -/
def isLineBreakChar (c : Char) : Bool :=
  c = '\n' ∨ c = '\r' ∨ c = '\x0b' ∨ c = '\x0c' ∨
  c = '\x1c' ∨ c = '\x1d' ∨ c = '\x1e' ∨ c = '\u0085' ∨ c = '\u2028' ∨ c = '\u2029'

/-- Auxiliary scanner for `splitlinesPy`: `acc` holds the current line in
reverse. -/
def splitlinesAux (acc : List Char) : List Char → List (List Char)
  | [] => match acc with
          | [] => []
          | _ => [acc.reverse]
  | '\r' :: '\n' :: rest => acc.reverse :: splitlinesAux [] rest
  | c :: rest =>
    if isLineBreakChar c then acc.reverse :: splitlinesAux [] rest
    else splitlinesAux (c :: acc) rest

/-- Python's `str.splitlines`: split at line boundaries, `\r\n` counting as
one boundary, with no trailing empty line. -/
def splitlinesPy (s : List Char) : List (List Char) := splitlinesAux [] s

/-- Python's `s.split(sep)` for a one-character separator: keeps empty
segments, and the empty string splits to one empty segment. -/
def splitOnChar (sep : Char) : List Char → List (List Char)
  | [] => [[]]
  | c :: rest =>
    let r := splitOnChar sep rest
    if c = sep then [] :: r
    else (c :: r.headD []) :: r.tail

/-- Split a text at the last occurrence of a (non-empty) separator,
returning the parts before and after it; `none` when the separator does
not occur.  Used to model the greedy `(.*) b/(.*)` of the diff header
regex. -/
def splitAtLastSep (sep : List Char) : List Char → Option (List Char × List Char)
  | [] => if sep.isPrefixOf ([] : List Char) then some ([], []) else none
  | c :: rest =>
    match splitAtLastSep sep rest with
    | some (p, q) => some (c :: p, q)
    | none =>
      if sep.isPrefixOf (c :: rest) then some ([], (c :: rest).drop sep.length)
      else none

/-- The stem of `os.path.splitext` for a path segment without separators:
split off the extension at the last dot, unless every character before
that dot is itself a dot (so `.gitignore` keeps its name whole). -/
def splitextStem (s : List Char) : List Char :=
  match splitAtLastSep (['.']) s with
  | none => s
  | some (before, _) =>
    if before.any (fun c => c ≠ '.') then before else s

/-! ## Data model: FileChange (scripts/analyze.py) -/

/-- One entry of `parse_diff`'s output: the per-file change record built
from a `diff --git` header block (`scripts/analyze.py`, `parse_diff`). -/
structure FileChange where
  old_path : List Char
  new_path : List Char
  is_new : Bool
  is_deleted : Bool
  added_lines : List (List Char)
  deleted_lines : List (List Char)
deriving DecidableEq, Repr

/-- A fresh record for a `diff --git a/<old> b/<new>` header. -/
def initFC (o n : List Char) : FileChange :=
  { old_path := o, new_path := n, is_new := false, is_deleted := false,
    added_lines := [], deleted_lines := [] }

/-- Match of the header regex `^diff --git a/(.*) b/(.*)` (re.match, so
anchored at the start; the groups are greedy, so the split is at the last
occurrence of the literal `" b/"`). -/
def headerMatch (line : List Char) : Option (List Char × List Char) :=
  if ("diff --git a/").data.isPrefixOf line then
    match splitAtLastSep ((" b/").data) (line.drop (("diff --git a/").data.length)) with
    | some (o, n) => some (o, n)
    | none => none
  else none

/-- One non-header line applied to the current record: the `elif` chain of
`parse_diff`'s loop body. -/
def applyLine (f : FileChange) (line : List Char) : FileChange :=
  if ("new file mode").data.isPrefixOf line then { f with is_new := true }
  else if ("deleted file mode").data.isPrefixOf line then { f with is_deleted := true }
  else if ("+").data.isPrefixOf line ∧ ¬ ("+++").data.isPrefixOf line then
    { f with added_lines := f.added_lines ++ [line.drop 1] }
  else if ("-").data.isPrefixOf line ∧ ¬ ("---").data.isPrefixOf line then
    { f with deleted_lines := f.deleted_lines ++ [line.drop 1] }
  else f

/-- The line loop of `parse_diff`: `cur` is the record currently being
built (none before the first header). -/
def parseAux (cur : Option FileChange) : List (List Char) → List FileChange
  | [] => cur.toList
  | l :: rest =>
    match headerMatch l with
    | some (o, n) => cur.toList ++ parseAux (some (initFC o n)) rest
    | none =>
      match cur with
      | none => parseAux none rest
      | some f => parseAux (some (applyLine f l)) rest

/-- Embedding of `parse_diff` (scripts/analyze.py): parse a raw unified
diff into per-file change records. -/
def parse_diff (raw : List Char) : List FileChange := parseAux none (splitlinesPy raw)

/-! ## File classifier predicates (scripts/analyze.py) -/

/-- The eleven bug keywords of `BUG_KEYWORDS` (scripts/analyze.py). -/
def BUG_KEYWORDS : List (List Char) :=
  [("fix").data, ("bug").data, ("error").data, ("issue").data, ("patch").data,
   ("crash").data, ("fault").data, ("defect").data, ("broken").data,
   ("wrong").data, ("incorrect").data]

/-- Word boundary before a keyword: the previous character (if any) is not
a word character. -/
def prevOk : Option Char → Bool
  | none => true
  | some c => ! isWordChar c

/-- Word boundary after a keyword: the next character (if any) is not a
word character. -/
def afterOk : List Char → Bool
  | [] => true
  | c :: _ => ! isWordChar c

/-- Case-insensitive literal match of `kw` at the head of `s`. -/
def ciMatchAt (kw s : List Char) : Bool := decide (lowerStr (s.take kw.length) = kw)

/-- A whole-word, case-insensitive bug-keyword match at the current
position: `prev` is the character just before the position. -/
def matchHere (prev : Option Char) (s : List Char) : Bool :=
  prevOk prev && BUG_KEYWORDS.any (fun kw => ciMatchAt kw s && afterOk (s.drop kw.length))

/-- Scan of `BUG_KEYWORDS.search`: try every position left to right. -/
def bugScanAux (prev : Option Char) : List Char → Bool
  | [] => false
  | c :: rest => matchHere prev (c :: rest) || bugScanAux (some c) rest

/-- Embedding of `BUG_KEYWORDS.search(text)` (scripts/analyze.py line 73):
the regex `\b(fix|bug|error|issue|patch|crash|fault|defect|broken|wrong|
incorrect)\b` with `re.IGNORECASE`. -/
def bug_keyword_search (t : List Char) : Bool := bugScanAux none t

/-- Embedding of `TEST_PATTERNS.search(path)`: any of the seven test-path
fragments occurs in the path, case-insensitively. -/
def testPathHit (p : List Char) : Bool :=
  let lp := lowerStr p
  [("test_").data, ("_test.").data, (".test.").data, (".spec.").data,
   ("/tests/").data, ("/test/").data, ("/__tests__/").data].any
    (fun pat => containsSub lp pat)

/-- Embedding of `DOC_PATTERNS.search(path)`: `(\.md$|^README|^docs/|
^CHANGELOG|^LICENSE|^CONTRIBUTING)` with `re.IGNORECASE`.  The `$` of the
first alternative also matches just before a final newline. -/
def docPathHit (p : List Char) : Bool :=
  let lp := lowerStr p
  ((".md").data.isSuffixOf lp) || ((".md\n").data.isSuffixOf lp) ||
  (("readme").data.isPrefixOf lp) || (("docs/").data.isPrefixOf lp) ||
  (("changelog").data.isPrefixOf lp) || (("license").data.isPrefixOf lp) ||
  (("contributing").data.isPrefixOf lp)

/-- Exact-match alternatives of `CHORE_PATTERNS`: anchored `^...$`
patterns, where `$` also matches just before a final newline. -/
def choreExactPats : List (List Char) :=
  [(".gitignore").data, ("Makefile").data, ("Dockerfile").data,
   ("Jenkinsfile").data, ("package.json").data, ("package-lock.json").data,
   ("yarn.lock").data, ("Gemfile").data, ("Gemfile.lock").data,
   ("setup.cfg").data, ("setup.py").data, ("pyproject.toml").data,
   ("Cargo.toml").data, ("Cargo.lock").data, ("go.mod").data, ("go.sum").data]

/-- Anchored-start alternatives of `CHORE_PATTERNS` (patterns with `^` but
no `$`). -/
def choreStartPats : List (List Char) :=
  [("docker-compose").data, (".github/").data, (".circleci/").data,
   (".gitlab-ci").data, (".eslintrc").data, (".prettierrc").data,
   ("tsconfig").data, (".env").data]

/-- Embedding of `CHORE_PATTERNS.search(path)` (case-sensitive). -/
def chorePathHit (p : List Char) : Bool :=
  choreExactPats.any (fun e => decide (p = e) || decide (p = e ++ [('\n')])) ||
  choreStartPats.any (fun e => e.isPrefixOf p)

/-- Embedding of `_normalize_ws` (scripts/analyze.py): remove every
whitespace character. -/
def normalize_ws (s : List Char) : List Char := s.filter (fun c => ! isPySpace c)

/-- Embedding of `is_style_only` (scripts/analyze.py): changes are
formatting-only. -/
def is_style_only (f : FileChange) : Bool :=
  if f.added_lines = [] ∨ f.deleted_lines = [] then false
  else if ((f.added_lines.length : Int) - (f.deleted_lines.length : Int)).natAbs >
          max 1 (f.added_lines.length / 3) then false
  else (f.added_lines.zip f.deleted_lines).all
    (fun ad => decide (normalize_ws ad.1 = normalize_ws ad.2))

/-- Embedding of `is_refactor` (scripts/analyze.py): similar add and
delete counts in a file that is neither new nor deleted.  The float test
`min(a,d)/max(a,d) > 0.5` is rendered exactly as `max < 2 * min`. -/
def is_refactor (f : FileChange) : Bool :=
  if f.is_new ∨ f.is_deleted then false
  else
    let a := f.added_lines.length
    let d := f.deleted_lines.length
    if a = 0 ∨ d = 0 then false
    else decide (max a d < 2 * min a d) && decide (3 ≤ a)

/-- Embedding of the inline `func_pattern` of `detect_type`
(scripts/analyze.py line 164): the line, after leading whitespace, starts
with a declaration-introducing token. -/
def funcLineHit (l : List Char) : Bool :=
  let r := l.dropWhile isPySpace
  (("def ").data.isPrefixOf r) || (("function ").data.isPrefixOf r) ||
  (("class ").data.isPrefixOf r) ||
  ((("const ").data.isPrefixOf r) &&
     (let r2 := r.drop 6
      let w := r2.takeWhile isWordChar
      decide (w ≠ []) && ((" = ").data.isPrefixOf (r2.drop w.length)))) ||
  (("export ").data.isPrefixOf r)

/-! ## Type detection (scripts/analyze.py, detect_type) -/

/-- The commit-type vocabulary of `ClassificationSignals`. -/
inductive CommitType where
  | feat | fix | test | docs | chore | style | refactor | perf
deriving DecidableEq, Repr

/-- Render a commit type the way the program prints it. -/
def ctString : CommitType → List Char
  | .feat => ("feat").data
  | .fix => ("fix").data
  | .test => ("test").data
  | .docs => ("docs").data
  | .chore => ("chore").data
  | .style => ("style").data
  | .refactor => ("refactor").data
  | .perf => ("perf").data

/-- The signals dictionary of `detect_type`: its seven keys in insertion
order are feat, fix, test, docs, chore, style, refactor. -/
structure Signals where
  feat : Nat
  fix : Nat
  test : Nat
  docs : Nat
  chore : Nat
  style : Nat
  refactor : Nat
deriving DecidableEq, Repr

/-- All signal counts start at zero. -/
def initSignals : Signals :=
  { feat := 0, fix := 0, test := 0, docs := 0, chore := 0, style := 0, refactor := 0 }

/-- Loop body of `detect_type`: the first-match rule chain that increments
exactly one signal for the file `f`. -/
def stepSig (s : Signals) (f : FileChange) : Signals :=
  if testPathHit f.new_path then { s with test := s.test + 1 }
  else if docPathHit f.new_path then { s with docs := s.docs + 1 }
  else if chorePathHit f.new_path then { s with chore := s.chore + 1 }
  else if f.is_new then { s with feat := s.feat + 1 }
  else if bug_keyword_search (List.intercalate (("\n").data) f.added_lines) then
    { s with fix := s.fix + 1 }
  else if is_style_only f then { s with style := s.style + 1 }
  else if is_refactor f then { s with refactor := s.refactor + 1 }
  else if f.added_lines.any funcLineHit then { s with feat := s.feat + 1 }
  else { s with chore := s.chore + 1 }

/-- Python's `max(iterable, key=...)` over value-carrying pairs: scan left
to right keeping the current best, replacing it only on a strictly larger
value — so the first of several tied maxima wins. -/
def pickBest {α : Type} : List (α × Nat) → α × Nat → α × Nat
  | [], b => b
  | x :: rest, b => pickBest rest (if b.2 < x.2 then x else b)

/-- Embedding of `detect_type` (scripts/analyze.py): per-file voting. -/
def detect_type (files : List FileChange) : List Char :=
  if files = [] then ("chore").data
  else
    let s := files.foldl stepSig initSignals
    let best := pickBest
      [(CommitType.fix, s.fix), (CommitType.test, s.test), (CommitType.docs, s.docs),
       (CommitType.chore, s.chore), (CommitType.style, s.style),
       (CommitType.refactor, s.refactor)]
      (CommitType.feat, s.feat)
    if best.2 = 0 then ("chore").data else ctString best.1

/-! ## Spec-side type detection (for the refinement claim C1) -/

/-- Stated from the spec's words: classify one file by evaluating the
predicates in the fixed priority order test-path, doc-path, chore-path,
is-new (feat), bug-keyword-in-added (fix), style-only (style),
refactor-like (refactor), new-construct-added (feat), fallback (chore);
the first matching rule wins. -/
def classifyFileSpec (f : FileChange) : CommitType :=
  if testPathHit f.new_path then .test
  else if docPathHit f.new_path then .docs
  else if chorePathHit f.new_path then .chore
  else if f.is_new then .feat
  else if bug_keyword_search (List.intercalate (("\n").data) f.added_lines) then .fix
  else if is_style_only f then .style
  else if is_refactor f then .refactor
  else if f.added_lines.any funcLineHit then .feat
  else .chore

/-- Stated from the spec's words: the vote count of a type is the number
of files classified to it. -/
def voteCount (files : List FileChange) (t : CommitType) : Nat :=
  files.countP (fun f => decide (classifyFileSpec f = t))

/-- The fixed enumeration order of the spec's tie-break:
feat, fix, test, docs, chore, style, refactor, perf. -/
def order8 : List CommitType :=
  [.feat, .fix, .test, .docs, .chore, .style, .refactor, .perf]

/-- The largest value among value-carrying pairs (0 for an empty list). -/
def maxVal {α : Type} (l : List (α × Nat)) : Nat :=
  l.foldr (fun x m => max x.2 m) 0

/-- Stated from the spec's words: the winning type is the one with the
highest vote count, ties broken by the fixed enumeration order (first in
`order8` among tied maxima wins); `chore` when every count is zero. -/
def detect_type_spec (files : List FileChange) : List Char :=
  let tally := order8.map (fun t => (t, voteCount files t))
  let m := maxVal tally
  if m = 0 then ("chore").data
  else
    match tally.find? (fun p => decide (p.2 = m)) with
    | some p => ctString p.1
    | none => ("chore").data

/-! ## Scope detection (scripts/analyze.py, detect_scope) -/

/-- Python dict assignment `d[k] = v` on an insertion-ordered association
list: overwrite in place when the key exists, append otherwise. -/
def upsert (k : List Char) (v : Nat) : List (List Char × Nat) → List (List Char × Nat)
  | [] => [(k, v)]
  | p :: rest => if p.1 = k then (p.1, v) :: rest else p :: upsert k v rest

/-- The per-path change counts of `detect_scope`: one dict entry per
distinct `new_path`, holding `len(added) + len(deleted)` of the file that
wrote it last. -/
def changeCounts (files : List FileChange) : List (List Char × Nat) :=
  files.foldl
    (fun d f => upsert f.new_path (f.added_lines.length + f.deleted_lines.length) d) []

/-- The single-file branch of `detect_scope`: extension-stripped lowercase
filename for a root-level path, lowercased first segment otherwise. -/
def singleScope (path : List Char) : List Char :=
  let parts := splitOnChar ('/') path
  if parts.length = 1 then lowerStr (splitextStem (parts.headD []))
  else lowerStr (parts.headD [])

/-- The per-path scope candidate collected into the `dirs` set of
`detect_scope`: first segment for a path with a directory, extension-
stripped filename for a root-level path. -/
def dirCandidate (path : List Char) : List Char :=
  let parts := splitOnChar ('/') path
  if parts.length > 1 then parts.headD []
  else splitextStem (parts.headD [])

/-- Insertion-order deduplication (the reachable behavior of the `dirs`
set: only its size and, when a singleton, its element are used). -/
def dedupAux (seen : List (List Char)) : List (List Char) → List (List Char)
  | [] => []
  | x :: rest =>
    if x ∈ seen then dedupAux seen rest
    else x :: dedupAux (x :: seen) rest

/-- Deduplicate keeping first occurrences. -/
def dedupL (l : List (List Char)) : List (List Char) := dedupAux [] l

/-- Embedding of `detect_scope` (scripts/analyze.py): derive the scope
from the most-changed directory or file. -/
def detect_scope (files : List FileChange) : List Char :=
  if files = [] then []
  else
    let cc := changeCounts files
    match cc with
    | [] => []
    | [(p, _)] => singleScope p
    | x :: y :: rest =>
      let most_changed := (pickBest (y :: rest) x).1
      let dirs := dedupL (cc.map (fun kv => dirCandidate kv.1))
      match dirs with
      | [d] => lowerStr d
      | _ =>
        let parts := splitOnChar ('/') most_changed
        if parts.length > 1 then lowerStr (parts.headD [])
        else lowerStr (splitextStem (parts.headD []))

/-! ## Summary generation (scripts/analyze.py, detect_summary) -/

/-- Decimal rendering of a Python int. -/
def intStr (m : Int) : List Char := (Int.repr m).data

/-- Python's `f"... {n} file{'s' if n > 1 else ''}"` tail. -/
def filesClause (word : List Char) (n : Int) : List Char :=
  word ++ intStr n ++ (" file").data ++ (if 1 < n then ("s").data else [])

/-- The last path segment: Python's `path.split("/")[-1]`. -/
def lastSeg (p : List Char) : List Char := (splitOnChar ('/') p).getLastD []

/-- Embedding of `detect_summary` (scripts/analyze.py): a brief summary of
what changed.  (The `names` list the source computes first is unused by
the source itself and is not reproduced.) -/
def detect_summary (files : List FileChange) (commit_type : List Char) : List Char :=
  match files with
  | [] => ("empty change").data
  | [f] =>
    let name := lastSeg f.new_path
    if f.is_new then ("add ").data ++ name
    else if f.is_deleted then ("remove ").data ++ name
    else if commit_type = ("fix").data then ("fix issue in ").data ++ name
    else if commit_type = ("refactor").data then ("refactor ").data ++ name
    else if commit_type = ("style").data then ("format ").data ++ name
    else if commit_type = ("docs").data then ("update ").data ++ name
    else if commit_type = ("test").data then ("update tests in ").data ++ name
    else ("update ").data ++ name
  | _ =>
    let new_count : Int := files.countP (fun f => f.is_new)
    let del_count : Int := files.countP (fun f => f.is_deleted)
    let mod_count : Int := (files.length : Int) - new_count - del_count
    let parts : List (List Char) :=
      (if new_count ≠ 0 then [filesClause (("add ").data) new_count] else []) ++
      (if del_count ≠ 0 then [filesClause (("remove ").data) del_count] else []) ++
      (if mod_count ≠ 0 then [filesClause (("update ").data) mod_count] else [])
    if parts = [] then ("update ").data ++ intStr files.length ++ (" files").data
    else List.intercalate ((", ").data) parts

/-! ## Data model: staged files (scripts/run.py) -/

/-- One staged file as `get_staged_files` reports it: the first letter of
the git name-status (A/M/D/R/...) and the path. -/
structure StagedFile where
  status : Char
  path : List Char
deriving DecidableEq, Repr

/-- Model of `pathlib.PurePosixPath(p).parts` for the paths the program
handles: split at `/`, dropping empty and `.` segments, with a `/` root
part for an absolute path. -/
def pathParts (p : List Char) : List (List Char) :=
  let segs := (splitOnChar ('/') p).filter (fun s => decide (s ≠ []) && decide (s ≠ ['.']))
  if p.headD ('a') = '/' then (['/']) :: segs else segs

/-- Model of `pathlib.PurePosixPath(p).name`: the last part, or empty for
a bare root. -/
def pathName (p : List Char) : List Char :=
  match (pathParts p).getLastD [] with
  | ['/'] => []
  | s => s

/-- Model of `pathlib.PurePosixPath(p).suffix`: the extension of the final
component, empty when the only dot leads the name or ends it. -/
def pathSuffix (p : List Char) : List Char :=
  let nm := pathName p
  match splitAtLastSep (['.']) nm with
  | none => []
  | some (before, after) =>
    if 0 < before.length ∧ after.length > 0 then ['.'] ++ after else []

/-! ## Keyword and pattern sets of scripts/run.py -/

/-- `DOC_PATTERNS` of scripts/run.py: documentation file extensions. -/
def DOC_SUFFIXES : List (List Char) :=
  [(".md").data, (".txt").data, (".rst").data, (".adoc").data]

/-- `CONFIG_PATTERNS` of scripts/run.py: configuration file extensions. -/
def CONFIG_SUFFIXES : List (List Char) :=
  [(".json").data, (".yml").data, (".yaml").data, (".toml").data,
   (".ini").data, (".cfg").data, (".conf").data, (".env").data]

/-- `TEST_PATTERNS` of scripts/run.py: test path fragments. -/
def TEST_FRAGMENTS : List (List Char) :=
  [("test").data, ("spec").data, ("__tests__").data, ("tests").data]

/-- `FIX_KEYWORDS` of scripts/run.py: seven fix keywords, matched as plain
substrings of the lowercased diff. -/
def FIX_KEYWORDS : List (List Char) :=
  [("fix").data, ("bug").data, ("error").data, ("patch").data,
   ("issue").data, ("crash").data, ("broken").data]

/-- `PERF_KEYWORDS` of scripts/run.py. -/
def PERF_KEYWORDS : List (List Char) :=
  [("perf").data, ("optimize").data, ("cache").data, ("speed").data,
   ("fast").data, ("slow").data, ("memory").data]

/-! ## Whole-diff type detection (scripts/run.py, detect_type) -/

/-- Condition `all(s == "A" for s in statuses)` of `detect_type`. -/
def allNewRun (files : List StagedFile) : Bool :=
  (files.map (fun f => f.status)).all (fun s => decide (s = 'A'))

/-- Condition `all(any(tp in p.lower() ...) ...)`: every path contains a
test fragment. -/
def allTestRun (files : List StagedFile) : Bool :=
  (files.map (fun f => f.path)).all
    (fun p => TEST_FRAGMENTS.any (fun tp => containsSub (lowerStr p) tp))

/-- Condition: every path's suffix is a documentation extension. -/
def allDocRun (files : List StagedFile) : Bool :=
  (files.map (fun f => f.path)).all
    (fun p => DOC_SUFFIXES.any (fun e => decide (lowerStr (pathSuffix p) = e)))

/-- Condition: every path's suffix is a configuration extension. -/
def allConfigRun (files : List StagedFile) : Bool :=
  (files.map (fun f => f.path)).all
    (fun p => CONFIG_SUFFIXES.any (fun e => decide (lowerStr (pathSuffix p) = e)))

/-- Condition `any(kw in diff_lower for kw in FIX_KEYWORDS)`: a fix
keyword occurs as a plain substring of the lowercased diff. -/
def fixKwHit (diff_content : List Char) : Bool :=
  FIX_KEYWORDS.any (fun kw => containsSub (lowerStr diff_content) kw)

/-- Condition `any(kw in diff_lower for kw in PERF_KEYWORDS)`. -/
def perfKwHit (diff_content : List Char) : Bool :=
  PERF_KEYWORDS.any (fun kw => containsSub (lowerStr diff_content) kw)

/-- The `added` count of `detect_type`:
`diff_lower.count("\n+") - diff_lower.count("\n+++")`. -/
def addedCountRun (diff_content : List Char) : Int :=
  (countSub (lowerStr diff_content) (("\n+").data) : Int) -
  (countSub (lowerStr diff_content) (("\n+++").data) : Int)

/-- The `removed` count of `detect_type`:
`diff_lower.count("\n-") - diff_lower.count("\n---")`. -/
def removedCountRun (diff_content : List Char) : Int :=
  (countSub (lowerStr diff_content) (("\n-").data) : Int) -
  (countSub (lowerStr diff_content) (("\n---").data) : Int)

/-- Embedding of `detect_type` (scripts/run.py): the whole-diff heuristic
over statuses, paths and the aggregate diff text. -/
def detect_type_run (files : List StagedFile) (diff_content : List Char) : List Char :=
  if files = [] then ("chore").data
  else if allNewRun files then ("feat").data
  else if allTestRun files then ("test").data
  else if allDocRun files then ("docs").data
  else if allConfigRun files then ("chore").data
  else if fixKwHit diff_content then ("fix").data
  else if perfKwHit diff_content then ("perf").data
  else if removedCountRun diff_content > addedCountRun diff_content ∧
          removedCountRun diff_content > 5 then ("refactor").data
  else ("feat").data

/-! ## Scope detection (scripts/run.py, detect_scope) -/

/-- The conventional root folders special-cased by `detect_scope`. -/
def rootFolders : List (List Char) :=
  [("src").data, ("lib").data, ("app").data, ("pkg").data]

/-- The per-file directory candidate appended to `dirs` by `detect_scope`
for a path with more than one part: second part under a conventional root
folder (when deep enough), first part otherwise. -/
def dirCandidateRun (parts : List (List Char)) : List Char :=
  if parts.headD [] ∈ rootFolders ∧ parts.length > 2 then (parts.drop 1).headD []
  else if ¬ parts.headD [] ∈ rootFolders then parts.headD []
  else if parts.length > 1 then (parts.drop 1).headD []
  else []

/-- Python dict counting `d[k] = d.get(k, 0) + 1` on an insertion-ordered
association list. -/
def bumpCount (k : List Char) : List (List Char × Nat) → List (List Char × Nat)
  | [] => [(k, 1)]
  | p :: rest => if p.1 = k then (p.1, p.2 + 1) :: rest else p :: bumpCount k rest

/-- Embedding of `detect_scope` (scripts/run.py): most common directory
candidate among the staged paths, with no lowercasing. -/
def detect_scope_run (files : List StagedFile) : List Char :=
  if files = [] then []
  else
    let dirs := files.foldl
      (fun acc f =>
        let parts := pathParts f.path
        if parts.length > 1 then acc ++ [dirCandidateRun parts] else acc) []
    if dirs = [] ∨ dirs.all (fun d => decide (d = [])) then []
    else
      let dir_counts := (dirs.filter (fun d => decide (d ≠ []))).foldl
        (fun m d => bumpCount d m) []
      match dir_counts with
      | [] => []
      | x :: rest => (pickBest rest x).1

/-! ## Subject generation (scripts/run.py, generate_subject) -/

/-- Embedding of `generate_subject` (scripts/run.py). -/
def generate_subject (files : List StagedFile) (commit_type : List Char) : List Char :=
  match files with
  | [f] =>
    let name := pathName f.path
    if f.status = 'A' then ("add ").data ++ name
    else if f.status = 'D' then ("remove ").data ++ name
    else ("update ").data ++ name
  | _ =>
    let file_count := files.length
    if commit_type = ("docs").data then
      let names := (files.take 3).map (fun f => pathName f.path)
      if names.length ≤ 2 then ("update ").data ++ List.intercalate ((" and ").data) names
      else ("update ").data ++ intStr file_count ++ (" doc files").data
    else if commit_type = ("test").data then
      ("update ").data ++ intStr file_count ++ (" test files").data
    else
      let added : Int := files.countP (fun f => decide (f.status = 'A'))
      let modified : Int := files.countP (fun f => decide (f.status = 'M'))
      let deleted : Int := files.countP (fun f => decide (f.status = 'D'))
      let parts : List (List Char) :=
        (if added ≠ 0 then [filesClause (("add ").data) added] else []) ++
        (if modified ≠ 0 then [filesClause (("update ").data) modified] else []) ++
        (if deleted ≠ 0 then [filesClause (("remove ").data) deleted] else [])
      if parts = [] then ("update ").data ++ intStr file_count ++ (" files").data
      else List.intercalate ((", ").data) parts

/-! ## Spec-side subject shapes (for claim C6) -/

/-- Stated from the spec's words for the multi-file summary of
`detect_summary`: count new, deleted and modified files and join the
non-zero clauses add / remove / update, in that fixed order, with commas;
fall back to an overall update clause when no clause remains. -/
def multi_summary_spec (files : List FileChange) : List Char :=
  let newCount : Int := files.countP (fun f => f.is_new)
  let delCount : Int := files.countP (fun f => f.is_deleted)
  let modCount : Int := (files.length : Int) - newCount - delCount
  let clauses : List (List Char) :=
    (if newCount ≠ 0 then [filesClause (("add ").data) newCount] else []) ++
    (if delCount ≠ 0 then [filesClause (("remove ").data) delCount] else []) ++
    (if modCount ≠ 0 then [filesClause (("update ").data) modCount] else [])
  if clauses = [] then ("update ").data ++ intStr files.length ++ (" files").data
  else List.intercalate ((", ").data) clauses

/-- The multi-file subject shape `generate_subject` (scripts/run.py)
actually produces for a type that is neither docs nor test: non-zero
clauses joined in the order add / update / remove. -/
def run_multi_subject_spec (files : List StagedFile) : List Char :=
  let added : Int := files.countP (fun f => decide (f.status = 'A'))
  let modified : Int := files.countP (fun f => decide (f.status = 'M'))
  let deleted : Int := files.countP (fun f => decide (f.status = 'D'))
  let clauses : List (List Char) :=
    (if added ≠ 0 then [filesClause (("add ").data) added] else []) ++
    (if modified ≠ 0 then [filesClause (("update ").data) modified] else []) ++
    (if deleted ≠ 0 then [filesClause (("remove ").data) deleted] else [])
  if clauses = [] then ("update ").data ++ intStr files.length ++ (" files").data
  else List.intercalate ((", ").data) clauses

/-! ## Concrete inputs used by witnesses and counterexamples -/

/-- A raw diff whose only changed file is `README.md`. -/
def readmeDiff : List Char :=
  ("diff --git a/README.md b/README.md\nindex 3b18e51..8d0e412 100644\n--- a/README.md\n+++ b/README.md\n@@ -1 +1 @@\n-Old intro\n+New intro").data

/-- The staged-file view of the same README-only change. -/
def readmeStaged : List StagedFile := [{ status := 'M', path := ("README.md").data }]

/-- A staged modification of a single extensionless root-level file. -/
def plainStaged : List StagedFile := [{ status := 'M', path := ("z").data }]

/-- A diff text with 10 added and 12 removed lines and no fix or perf
keyword. -/
def shrinkDiff : List Char :=
  ("x\n+a\n+a\n+a\n+a\n+a\n+a\n+a\n+a\n+a\n+a\n-q\n-q\n-q\n-q\n-q\n-q\n-q\n-q\n-q\n-q\n-q\n-q").data

/-- Staged files with 2 additions, 1 deletion and 3 modifications. -/
def sixStaged : List StagedFile :=
  [{ status := 'A', path := ("a").data }, { status := 'A', path := ("b").data },
   { status := 'D', path := ("c").data }, { status := 'M', path := ("d").data },
   { status := 'M', path := ("e").data }, { status := 'M', path := ("f").data }]

/-- File records with 2 new files, 1 deleted file and 3 modifications. -/
def sixChanges : List FileChange :=
  [{ initFC (("a").data) (("a").data) with is_new := true },
   { initFC (("b").data) (("b").data) with is_new := true },
   { initFC (("c").data) (("c").data) with is_deleted := true },
   initFC (("d").data) (("d").data),
   initFC (("e").data) (("e").data),
   initFC (("f").data) (("f").data)]

/-- A staged modification under an uppercase directory. -/
def upperStaged : List StagedFile := [{ status := 'M', path := ("API/x.py").data }]

/-- A malformed diff whose single header block carries both a
`new file mode` line and a `deleted file mode` line. -/
def bothModesDiff : List Char :=
  ("diff --git a/x b/x\nnew file mode 100644\ndeleted file mode 100644").data

/-- A text with no `diff --git` header at all. -/
def headerlessText : List Char := ("hello\nworld").data

/-- Two distinct records sharing the path `pkg/core.py`. -/
def duplicatePathChanges : List FileChange :=
  [{ initFC (("pkg/core.py").data) (("pkg/core.py").data) with
      added_lines := [("a = 1").data] },
   { initFC (("pkg/core.py").data) (("pkg/core.py").data) with
      deleted_lines := [("b = 2").data, ("c = 3").data] }]

/-! ## Helper views of the signals record (used only in proofs) -/

/-- Read one signal count (the absent `perf` key reads as zero). -/
def getSig (s : Signals) : CommitType → Nat
  | .feat => s.feat
  | .fix => s.fix
  | .test => s.test
  | .docs => s.docs
  | .chore => s.chore
  | .style => s.style
  | .refactor => s.refactor
  | .perf => 0

/-- Increment one signal count (incrementing `perf` is a no-op; the
classifier never selects it). -/
def incSignal (s : Signals) : CommitType → Signals
  | .feat => { s with feat := s.feat + 1 }
  | .fix => { s with fix := s.fix + 1 }
  | .test => { s with test := s.test + 1 }
  | .docs => { s with docs := s.docs + 1 }
  | .chore => { s with chore := s.chore + 1 }
  | .style => { s with style := s.style + 1 }
  | .refactor => { s with refactor := s.refactor + 1 }
  | .perf => s

/-! ## General lemmas about the text helpers -/

/-- Boolean prefix test in terms of an explicit decomposition. -/
theorem prefixOf_iff_append : ∀ p s : List Char, p.isPrefixOf s = true ↔ ∃ t, s = p ++ t := by
  intro p
  induction p with
  | nil => intro s; simp [List.isPrefixOf]
  | cons a p ih =>
    intro s
    cases s with
    | nil => simp [List.isPrefixOf]
    | cons b s2 =>
      constructor
      · intro h
        simp only [List.isPrefixOf, Bool.and_eq_true, beq_iff_eq] at h
        obtain ⟨h1, h2⟩ := h
        obtain ⟨t, ht⟩ := (ih s2).mp h2
        exact ⟨t, by rw [List.cons_append, ← h1, ht]⟩
      · intro h
        obtain ⟨t, ht⟩ := h
        rw [List.cons_append] at ht
        injection ht with h1 h2
        simp only [List.isPrefixOf, Bool.and_eq_true, beq_iff_eq]
        exact ⟨h1.symm, (ih s2).mpr ⟨t, h2⟩⟩

/-- Substring containment in terms of an explicit decomposition. -/
theorem containsSub_iff : ∀ hay pat : List Char,
    containsSub hay pat = true ↔ ∃ pre post, hay = pre ++ pat ++ post := by
  intro hay pat
  induction hay with
  | nil =>
    simp only [containsSub, decide_eq_true_eq]
    constructor
    · rintro rfl; exact ⟨[], [], rfl⟩
    · rintro ⟨pre, post, h⟩
      rcases List.append_eq_nil.mp h.symm with ⟨h1, h2⟩
      rcases List.append_eq_nil.mp h1 with ⟨-, h3⟩
      exact h3
  | cons c rest ih =>
    simp only [containsSub, Bool.or_eq_true, prefixOf_iff_append, ih]
    constructor
    · rintro (⟨t, ht⟩ | ⟨pre, post, hp⟩)
      · exact ⟨[], t, by simpa using ht⟩
      · exact ⟨c :: pre, post, by rw [hp]; rfl⟩
    · rintro ⟨pre, post, h⟩
      cases pre with
      | nil => exact Or.inl ⟨post, by simpa using h⟩
      | cons a pre2 =>
        rw [List.cons_append, List.cons_append] at h
        injection h with h1 h2
        exact Or.inr ⟨pre2, post, h2⟩

/-- A character that survives `lookupChar` without a hit is not a key. -/
theorem lookupChar_none_not_key (c : Char) :
    ∀ l : List (Char × Char), lookupChar c l = none → l.all (fun p => ! decide (p.1 = c)) = true := by
  intro l
  induction l with
  | nil => intro _; rfl
  | cons p rest ih =>
    intro h
    simp only [lookupChar] at h
    by_cases hc : p.1 = c
    · simp [hc] at h
    · simp only [List.all_cons, Bool.and_eq_true]
      exact ⟨by simp [hc], ih (by simpa [hc] using h)⟩

/-- A `lookupChar` hit returns one of the stored values. -/
theorem lookupChar_some_val (c v : Char) :
    ∀ l : List (Char × Char), lookupChar c l = some v → v ∈ l.map (fun p => p.2) := by
  intro l
  induction l with
  | nil => intro h; simp [lookupChar] at h
  | cons p rest ih =>
    intro h
    simp only [lookupChar] at h
    by_cases hc : p.1 = c
    · simp [hc] at h
      simp [h]
    · simp [hc] at h
      simp [ih h]

/-- Lowercasing never yields an ASCII uppercase letter. -/
theorem lowerChar_notUpper (c : Char) : isAsciiUpper (lowerChar c) = false := by
  unfold lowerChar
  cases h : lookupChar c upperLowerPairs with
  | none =>
    have := lookupChar_none_not_key c upperLowerPairs h
    unfold isAsciiUpper
    rw [List.all_eq_true] at this
    rw [List.any_eq_false]
    intro p hp
    have := this p hp
    simpa using this
  | some v =>
    have hv := lookupChar_some_val c v upperLowerPairs h
    revert hv
    unfold upperLowerPairs
    intro hv
    fin_cases hv <;> rfl

/-- No character of a lowercased text is an ASCII uppercase letter. -/
theorem lowerStr_notUpper (s : List Char) :
    (lowerStr s).all (fun c => ! isAsciiUpper c) = true := by
  unfold lowerStr
  rw [List.all_eq_true]
  intro c hc
  rw [List.mem_map] at hc
  obtain ⟨a, -, rfl⟩ := hc
  simp [lowerChar_notUpper]

/-- Lowercasing preserves length. -/
theorem lowerStr_length (s : List Char) : (lowerStr s).length = s.length :=
  List.length_map s lowerChar

/-! ## Lemmas about first-maximum selection (Python's `max(..., key=...)`) -/

/-- Every value in the list is bounded by `maxVal`. -/
theorem maxVal_le_of_mem {α : Type} (l : List (α × Nat)) (x : α × Nat) (h : x ∈ l) :
    x.2 ≤ maxVal l := by
  induction l with
  | nil => cases h
  | cons y rest ih =>
    rcases List.mem_cons.mp h with rfl | h2
    · simp [maxVal, List.foldr]
    · have := ih h2
      simp only [maxVal, List.foldr] at this ⊢
      omega

/-- The value `pickBest` selects is the running maximum. -/
theorem pickBest_val {α : Type} : ∀ (l : List (α × Nat)) (b : α × Nat),
    (pickBest l b).2 = max b.2 (maxVal l) := by
  intro l
  induction l with
  | nil => intro b; simp [pickBest, maxVal]
  | cons x rest ih =>
    intro b
    simp only [pickBest, maxVal, List.foldr]
    rw [ih]
    by_cases h : b.2 < x.2 <;> simp [h, maxVal] <;> omega

/-- When nothing beats the current best, `pickBest` keeps it. -/
theorem pickBest_eq_self {α : Type} : ∀ (l : List (α × Nat)) (b : α × Nat),
    (∀ x ∈ l, x.2 ≤ b.2) → pickBest l b = b := by
  intro l
  induction l with
  | nil => intro b _; rfl
  | cons x rest ih =>
    intro b h
    have hx : ¬ b.2 < x.2 := by
      have := h x (List.mem_cons_self x rest)
      omega
    simp only [pickBest, if_neg hx]
    exact ih b (fun y hy => h y (List.mem_cons_of_mem x hy))

/-- `pickBest` selects the first element attaining the maximum: searching
the scanned list for the selected value finds the selected element. -/
theorem pickBest_find {α : Type} : ∀ (l : List (α × Nat)) (b : α × Nat),
    List.find? (fun y => decide (y.2 = (pickBest l b).2)) (b :: l) = some (pickBest l b) := by
  intro l
  induction l with
  | nil => simp [pickBest, List.find?]
  | cons x rest ih =>
    intro b
    by_cases hx : b.2 < x.2
    · have hb : (pickBest (x :: rest) b) = pickBest rest x := by simp [pickBest, hx]
      rw [hb]
      have hbv : ¬ b.2 = (pickBest rest x).2 := by
        rw [pickBest_val]
        omega
      rw [List.find?_cons_of_neg _ (by simpa using hbv)]
      exact ih x
    · have hb : (pickBest (x :: rest) b) = pickBest rest b := by simp [pickBest, hx]
      rw [hb]
      by_cases hbv : b.2 = (pickBest rest b).2
      · have hstay : pickBest rest b = b := by
          apply pickBest_eq_self
          intro y hy
          have h1 := maxVal_le_of_mem rest y hy
          have h2 := pickBest_val rest b
          omega
        rw [hstay] at hbv ⊢
        rw [List.find?_cons_of_pos _ (by simp)]
      · rw [List.find?_cons_of_neg _ (by simpa using hbv)]
        have hthis := ih b
        rw [List.find?_cons_of_neg _ (by simpa using hbv)] at hthis
        by_cases hxv : x.2 = (pickBest rest b).2
        · exact (absurd hxv (by
            have h2 := pickBest_val rest b
            omega))
        · rw [List.find?_cons_of_neg _ (by simpa using hxv)]
          exact hthis

/-- A successful search is preserved by appending on the right. -/
theorem find?_append_some {α : Type} (p : α → Bool) :
    ∀ (l1 l2 : List α) (x : α), List.find? p l1 = some x →
      List.find? p (l1 ++ l2) = some x := by
  intro l1
  induction l1 with
  | nil => intro l2 x h; simp [List.find?] at h
  | cons a rest ih =>
    intro l2 x h
    rw [List.cons_append]
    by_cases ha : p a
    · rw [List.find?_cons_of_pos _ ha] at h
      rw [List.find?_cons_of_pos _ ha]
      exact h
    · rw [List.find?_cons_of_neg _ ha] at h
      rw [List.find?_cons_of_neg _ ha]
      exact ih l2 x h

/-- The maximum over an appended pair of lists. -/
theorem maxVal_append {α : Type} : ∀ l1 l2 : List (α × Nat),
    maxVal (l1 ++ l2) = max (maxVal l1) (maxVal l2) := by
  intro l1 l2
  induction l1 with
  | nil => simp [maxVal]
  | cons x rest ih =>
    have h1 : maxVal ((x :: rest) ++ l2) = max x.2 (maxVal (rest ++ l2)) := rfl
    have h2 : maxVal (x :: rest) = max x.2 (maxVal rest) := rfl
    rw [h1, h2, ih]
    omega

/-! ## Lemmas for the per-file voting detector -/

/-- The loop body increments exactly the signal the spec-side classifier
selects. -/
theorem stepSig_eq_inc (s : Signals) (f : FileChange) :
    stepSig s f = incSignal s (classifyFileSpec f) := by
  unfold stepSig classifyFileSpec
  repeat' split
  all_goals simp_all [incSignal]

/-- The spec-side classifier never selects `perf`. -/
theorem classifyFileSpec_ne_perf (f : FileChange) : classifyFileSpec f ≠ .perf := by
  unfold classifyFileSpec
  repeat' split
  all_goals simp

/-- One increment read back through `getSig`. -/
theorem getSig_inc (s : Signals) (u t : CommitType) (hu : u ≠ .perf) :
    getSig (incSignal s u) t = getSig s t + (if u = t then 1 else 0) := by
  cases u <;> cases t <;> simp_all [incSignal, getSig]

/-- Folding the loop body tallies the classifier over the files. -/
theorem getSig_fold : ∀ (files : List FileChange) (s : Signals) (t : CommitType),
    getSig (files.foldl stepSig s) t =
      getSig s t + files.countP (fun f => decide (classifyFileSpec f = t)) := by
  intro files
  induction files with
  | nil => intro s t; simp
  | cons f rest ih =>
    intro s t
    rw [List.foldl_cons, ih, stepSig_eq_inc,
      getSig_inc s (classifyFileSpec f) t (classifyFileSpec_ne_perf f)]
    rw [List.countP_cons]
    by_cases h : classifyFileSpec f = t <;> (simp [h]; try omega)

/-- The program's first-maximum scan agrees with the spec's description
"highest count, first in the enumeration among tied maxima, chore when
every count is zero", with a zero-valued trailing entry (the `perf` key
that the signals dictionary lacks) appended on the spec side. -/
theorem pickBest_bridge (l : List (CommitType × Nat)) (b z : CommitType × Nat)
    (hz : z.2 = 0) :
    (if (pickBest l b).2 = 0 then ("chore").data else ctString (pickBest l b).1) =
    (if maxVal (b :: l ++ [z]) = 0 then ("chore").data
     else
       match (b :: l ++ [z]).find? (fun p => decide (p.2 = maxVal (b :: l ++ [z]))) with
       | some p => ctString p.1
       | none => ("chore").data) := by
  have hm : maxVal (b :: l ++ [z]) = max b.2 (maxVal l) := by
    have h1 : maxVal (b :: l ++ [z]) = max b.2 (maxVal (l ++ [z])) := rfl
    rw [h1, maxVal_append]
    have h2 : maxVal [z] = 0 := by simp [maxVal, hz]
    rw [h2]
    omega
  have hpv := pickBest_val l b
  by_cases h0 : max b.2 (maxVal l) = 0
  · rw [if_pos (by omega), if_pos (by omega)]
  · rw [if_neg (by omega), if_neg (by omega)]
    have hf : (b :: l).find? (fun p => decide (p.2 = maxVal (b :: l ++ [z])))
        = some (pickBest l b) := by
      rw [hm, ← hpv]
      exact pickBest_find l b
    have happ := find?_append_some
      (fun p => decide (p.2 = maxVal (b :: l ++ [z]))) (b :: l) [z] _ hf
    have hsame : (b :: l) ++ [z] = b :: l ++ [z] := List.cons_append b l [z]
    rw [hsame] at happ
    rw [happ]

/-- Claim C1: for every non-empty sequence of FileChange records, the
per-file voting detector evaluates the predicates in the fixed priority
order test-path, doc-path, chore-path, is-new (feat), bug-keyword-in-added
(fix), style-only (style), refactor-like (refactor), new-construct-added
(feat), fallback (chore), increments exactly one signal per file (first
match wins), and returns the type with the highest vote count, ties broken
by the enumeration order feat, fix, test, docs, chore, style, refactor,
perf, with chore when every count is zero: `detect_type` equals the
spec-side `detect_type_spec` built from exactly that description. -/
theorem claim_C1 (files : List FileChange) (hne : files ≠ []) :
    detect_type files = detect_type_spec files := by
  have hperf : voteCount files .perf = 0 := by
    unfold voteCount
    rw [List.countP_eq_zero]
    intro f _
    simp [classifyFileSpec_ne_perf f]
  have hget : ∀ t, getSig (files.foldl stepSig initSignals) t = voteCount files t := by
    intro t
    have h := getSig_fold files initSignals t
    have h0 : getSig initSignals t = 0 := by cases t <;> rfl
    rw [h, h0, Nat.zero_add]
    rfl
  have hfeat := hget .feat
  have hfix := hget .fix
  have htest := hget .test
  have hdocs := hget .docs
  have hchore := hget .chore
  have hstyle := hget .style
  have hrefactor := hget .refactor
  simp only [getSig] at hfeat hfix htest hdocs hchore hstyle hrefactor
  simp only [detect_type, detect_type_spec, if_neg hne, order8, List.map]
  rw [hfeat, hfix, htest, hdocs, hchore, hstyle, hrefactor]
  have hb := pickBest_bridge
    [(CommitType.fix, voteCount files .fix), (CommitType.test, voteCount files .test),
     (CommitType.docs, voteCount files .docs), (CommitType.chore, voteCount files .chore),
     (CommitType.style, voteCount files .style),
     (CommitType.refactor, voteCount files .refactor)]
    (CommitType.feat, voteCount files .feat) (CommitType.perf, voteCount files .perf)
    hperf
  simpa using hb

/-- Witness for claim C1 at a concrete one-file input. -/
theorem claim_C1_witness :
    [initFC (("a").data) (("a").data)] ≠ ([] : List FileChange) ∧
      detect_type [initFC (("a").data) (("a").data)] =
        detect_type_spec [initFC (("a").data) (("a").data)] :=
  ⟨by decide, claim_C1 [initFC (("a").data) (("a").data)] (by decide)⟩

/-! ## Lemmas for the style-only predicate (claim C5) -/

/-- Elementwise comparison over a zip, re-read as an indexed statement up
to the shorter length. -/
theorem zip_all_norm_iff : ∀ xs ys : List (List Char),
    ((xs.zip ys).all (fun ad => decide (normalize_ws ad.1 = normalize_ws ad.2)) = true) ↔
      (∀ i, i < min xs.length ys.length →
        normalize_ws (xs.getD i []) = normalize_ws (ys.getD i [])) := by
  intro xs
  induction xs with
  | nil => intro ys; simp
  | cons x xs ih =>
    intro ys
    cases ys with
    | nil => simp
    | cons y ys =>
      simp only [List.zip_cons_cons, List.all_cons, Bool.and_eq_true, decide_eq_true_eq,
        List.length_cons, ih]
      constructor
      · rintro ⟨h0, hrest⟩ i hi
        cases i with
        | zero => simpa using h0
        | succ j =>
          have hj : j < min xs.length ys.length := by omega
          simpa using hrest j hj
      · intro h
        constructor
        · simpa using h 0 (by omega)
        · intro j hj
          have := h (j + 1) (by omega)
          simpa using this

/-- Claim C5: the style-only predicate holds exactly when both line lists
are non-empty, their length difference is at most max(1, addedCount / 3),
and elementwise, up to the shorter length, the added line equals the
deleted line once all whitespace is removed. -/
theorem claim_C5 (f : FileChange) :
    is_style_only f = true ↔
      (f.added_lines ≠ [] ∧ f.deleted_lines ≠ [] ∧
       ((f.added_lines.length : Int) - (f.deleted_lines.length : Int)).natAbs ≤
         max 1 (f.added_lines.length / 3) ∧
       (∀ i, i < min f.added_lines.length f.deleted_lines.length →
         normalize_ws (f.added_lines.getD i []) =
           normalize_ws (f.deleted_lines.getD i []))) := by
  unfold is_style_only
  by_cases h1 : f.added_lines = [] ∨ f.deleted_lines = []
  · rw [if_pos h1]
    apply iff_of_false (by simp)
    intro hcon
    rcases h1 with h | h
    · exact hcon.1 h
    · exact hcon.2.1 h
  · rw [if_neg h1]
    push_neg at h1
    by_cases h2 : ((f.added_lines.length : Int) - (f.deleted_lines.length : Int)).natAbs >
        max 1 (f.added_lines.length / 3)
    · rw [if_pos h2]
      apply iff_of_false (by simp)
      intro hcon
      have := hcon.2.2.1
      omega
    · rw [if_neg h2]
      rw [zip_all_norm_iff]
      constructor
      · intro h
        exact ⟨h1.1, h1.2, by omega, h⟩
      · intro h
        exact h.2.2.2

/-! ## Lemmas for the diff parser (claims C8 and C9) -/

/-- Claim C9: the parser is total (it is a Lean function), an input with
no `diff --git` header parses to the empty sequence, a line before any
header is ignored, and in particular a concrete headerless text parses to
no records. -/
theorem claim_C9 :
    (∀ raw : List Char, (∀ l ∈ splitlinesPy raw, headerMatch l = none) →
        parse_diff raw = []) ∧
    (∀ (l : List Char) (rest : List (List Char)), headerMatch l = none →
        parseAux none (l :: rest) = parseAux none rest) ∧
    parse_diff headerlessText = [] := by
  have hskip : ∀ (l : List Char) (rest : List (List Char)), headerMatch l = none →
      parseAux none (l :: rest) = parseAux none rest := by
    intro l rest h
    simp [parseAux, h]
  refine ⟨?_, hskip, by decide⟩
  intro raw hall
  unfold parse_diff
  generalize splitlinesPy raw = lines at hall
  induction lines with
  | nil => rfl
  | cons l rest ih =>
    rw [hskip l rest (hall l (List.mem_cons_self l rest))]
    exact ih (fun x hx => hall x (List.mem_cons_of_mem l hx))

/-- A line carrying the `new file mode` marker cannot also carry the
`deleted file mode` marker. -/
theorem modes_disjoint (l : List Char) :
    ("new file mode").data.isPrefixOf l = true →
      ("deleted file mode").data.isPrefixOf l = false := by
  intro h
  obtain ⟨t, rfl⟩ := (prefixOf_iff_append _ _).mp h
  rfl

/-- The `is_new` flag after one line: set exactly by a `new file mode`
line, never cleared. -/
theorem applyLine_is_new (f : FileChange) (l : List Char) :
    (applyLine f l).is_new = (f.is_new || ("new file mode").data.isPrefixOf l) := by
  unfold applyLine
  repeat' split
  all_goals simp_all

/-- The `is_deleted` flag after one line: set exactly by a
`deleted file mode` line, never cleared. -/
theorem applyLine_is_deleted (f : FileChange) (l : List Char) :
    (applyLine f l).is_deleted =
      (f.is_deleted || ("deleted file mode").data.isPrefixOf l) := by
  have hd := modes_disjoint l
  unfold applyLine
  repeat' split
  all_goals simp_all

/-- Where a record's flags can come from: a mode line of the scanned text,
or the record the scan started with. -/
theorem parseAux_flag_src :
    ∀ (lines : List (List Char)) (cur : Option FileChange) (f : FileChange),
      f ∈ parseAux cur lines →
      ((f.is_new = true →
          (∃ l ∈ lines, ("new file mode").data.isPrefixOf l = true) ∨
          (∃ c, cur = some c ∧ c.is_new = true)) ∧
       (f.is_deleted = true →
          (∃ l ∈ lines, ("deleted file mode").data.isPrefixOf l = true) ∨
          (∃ c, cur = some c ∧ c.is_deleted = true))) := by
  intro lines
  induction lines with
  | nil =>
    intro cur f hf
    simp only [parseAux] at hf
    cases cur with
    | none => simp at hf
    | some c =>
      simp at hf
      subst hf
      exact ⟨fun h => Or.inr ⟨f, rfl, h⟩, fun h => Or.inr ⟨f, rfl, h⟩⟩
  | cons l rest ih =>
    intro cur f hf
    simp only [parseAux] at hf
    cases hh : headerMatch l with
    | some pq =>
      obtain ⟨o, n⟩ := pq
      rw [hh] at hf
      dsimp only at hf
      rcases List.mem_append.mp hf with hmem | hmem
      · cases cur with
        | none => simp at hmem
        | some c =>
          simp at hmem
          subst hmem
          exact ⟨fun h => Or.inr ⟨f, rfl, h⟩, fun h => Or.inr ⟨f, rfl, h⟩⟩
      · have := ih (some (initFC o n)) f hmem
        refine ⟨fun h => ?_, fun h => ?_⟩
        · rcases this.1 h with ⟨x, hx, hpx⟩ | ⟨c, hc, hcn⟩
          · exact Or.inl ⟨x, List.mem_cons_of_mem l hx, hpx⟩
          · rw [Option.some.injEq] at hc
            rw [← hc] at hcn
            simp [initFC] at hcn
        · rcases this.2 h with ⟨x, hx, hpx⟩ | ⟨c, hc, hcn⟩
          · exact Or.inl ⟨x, List.mem_cons_of_mem l hx, hpx⟩
          · rw [Option.some.injEq] at hc
            rw [← hc] at hcn
            simp [initFC] at hcn
    | none =>
      rw [hh] at hf
      dsimp only at hf
      cases cur with
      | none =>
        have := ih none f hf
        refine ⟨fun h => ?_, fun h => ?_⟩
        · rcases this.1 h with ⟨x, hx, hpx⟩ | ⟨c, hc, -⟩
          · exact Or.inl ⟨x, List.mem_cons_of_mem l hx, hpx⟩
          · cases hc
        · rcases this.2 h with ⟨x, hx, hpx⟩ | ⟨c, hc, -⟩
          · exact Or.inl ⟨x, List.mem_cons_of_mem l hx, hpx⟩
          · cases hc
      | some c =>
        have := ih (some (applyLine c l)) f hf
        refine ⟨fun h => ?_, fun h => ?_⟩
        · rcases this.1 h with ⟨x, hx, hpx⟩ | ⟨c2, hc, hcn⟩
          · exact Or.inl ⟨x, List.mem_cons_of_mem l hx, hpx⟩
          · rw [Option.some.injEq] at hc
            rw [← hc, applyLine_is_new, Bool.or_eq_true] at hcn
            rcases hcn with hcn | hcn
            · exact Or.inr ⟨c, rfl, hcn⟩
            · exact Or.inl ⟨l, List.mem_cons_self l rest, hcn⟩
        · rcases this.2 h with ⟨x, hx, hpx⟩ | ⟨c2, hc, hcn⟩
          · exact Or.inl ⟨x, List.mem_cons_of_mem l hx, hpx⟩
          · rw [Option.some.injEq] at hc
            rw [← hc, applyLine_is_deleted, Bool.or_eq_true] at hcn
            rcases hcn with hcn | hcn
            · exact Or.inr ⟨c, rfl, hcn⟩
            · exact Or.inl ⟨l, List.mem_cons_self l rest, hcn⟩

/-- Counterexample to claim C8 as stated: a malformed input whose single
header block carries both mode lines yields a record with `is_new` and
`is_deleted` both true. -/
theorem claim_C8_counterexample :
    ∃ f ∈ parse_diff bothModesDiff, f.is_new = true ∧ f.is_deleted = true := by
  decide

/-- Claim C8 as amended: the two flags of a parsed record can only both be
true when the input carries both a `new file mode` line and a
`deleted file mode` line; whenever one of the two line kinds is absent
from the input, `isNew` and `isDeleted` are mutually exclusive. -/
theorem claim_C8_amended (raw : List Char)
    (hone : (∀ l ∈ splitlinesPy raw, ("new file mode").data.isPrefixOf l = false) ∨
            (∀ l ∈ splitlinesPy raw, ("deleted file mode").data.isPrefixOf l = false)) :
    ∀ f ∈ parse_diff raw, ¬ (f.is_new = true ∧ f.is_deleted = true) := by
  intro f hf ⟨hn, hd⟩
  have hsrc := parseAux_flag_src (splitlinesPy raw) none f hf
  rcases hone with hno | hno
  · rcases hsrc.1 hn with ⟨l, hl, hp⟩ | ⟨c, hc, -⟩
    · rw [hno l hl] at hp; cases hp
    · cases hc
  · rcases hsrc.2 hd with ⟨l, hl, hp⟩ | ⟨c, hc, -⟩
    · rw [hno l hl] at hp; cases hp
    · cases hc

/-- Witness for the amended claim C8 at the concrete README diff. -/
theorem claim_C8_amended_witness :
    (∀ l ∈ splitlinesPy readmeDiff, ("new file mode").data.isPrefixOf l = false) ∧
    (∀ f ∈ parse_diff readmeDiff, ¬ (f.is_new = true ∧ f.is_deleted = true)) :=
  ⟨by decide, claim_C8_amended readmeDiff (Or.inl (by decide))⟩

/-! ## Lemmas for the diff-based scope detector (claim C10) -/

/-- Overwriting the only key of a one-entry dict keeps it a one-entry
dict. -/
theorem upsert_single (p : List Char) (v w : Nat) :
    upsert p v [(p, w)] = [(p, v)] := by
  simp [upsert]

/-- Folding same-path files over a one-entry dict keyed by that path keeps
the dict a one-entry dict keyed by that path. -/
theorem changeCounts_aux :
    ∀ (files : List FileChange) (p : List Char) (v0 : Nat),
      (∀ f ∈ files, f.new_path = p) →
      ∃ v, files.foldl
        (fun d f => upsert f.new_path (f.added_lines.length + f.deleted_lines.length) d)
        [(p, v0)] = [(p, v)] := by
  intro files
  induction files with
  | nil => intro p v0 _; exact ⟨v0, rfl⟩
  | cons f rest ih =>
    intro p v0 hall
    have hp : f.new_path = p := hall f (List.mem_cons_self f rest)
    rw [List.foldl_cons, hp, upsert_single]
    exact ih p _ (fun x hx => hall x (List.mem_cons_of_mem f hx))

/-- The change-count dict of a non-empty same-path file list is a
one-entry dict keyed by that path. -/
theorem changeCounts_const (files : List FileChange) (p : List Char)
    (hne : files ≠ []) (hall : ∀ f ∈ files, f.new_path = p) :
    ∃ v, changeCounts files = [(p, v)] := by
  cases files with
  | nil => exact absurd rfl hne
  | cons f rest =>
    have hp : f.new_path = p := hall f (List.mem_cons_self f rest)
    unfold changeCounts
    rw [List.foldl_cons, hp]
    have h0 : upsert p (f.added_lines.length + f.deleted_lines.length) [] =
        [(p, f.added_lines.length + f.deleted_lines.length)] := rfl
    rw [h0]
    exact changeCounts_aux rest p _ (fun x hx => hall x (List.mem_cons_of_mem f hx))

/-- Claim C10: when two or more FileChange records all share one path, the
duplicate paths collapse into a single dict entry, so `detect_scope`
returns exactly what it returns for a single file with that path (the
multiple-file most-changed-file rule is never applied). -/
theorem claim_C10 (files : List FileChange) (f0 : FileChange) (p : List Char)
    (hlen : 2 ≤ files.length) (hall : ∀ f ∈ files, f.new_path = p)
    (hp0 : f0.new_path = p) :
    detect_scope files = detect_scope [f0] := by
  have hne : files ≠ [] := by
    intro h
    rw [h] at hlen
    simp at hlen
  obtain ⟨v, hv⟩ := changeCounts_const files p hne hall
  have h1 : changeCounts [f0] = [(p, f0.added_lines.length + f0.deleted_lines.length)] := by
    unfold changeCounts
    rw [List.foldl_cons, hp0]
    rfl
  simp only [detect_scope, if_neg hne, hv, h1]
  simp

/-- Witness for claim C10 at two concrete records sharing one path. -/
theorem claim_C10_witness :
    2 ≤ duplicatePathChanges.length ∧
    (∀ f ∈ duplicatePathChanges, f.new_path = ("pkg/core.py").data) ∧
    detect_scope duplicatePathChanges =
      detect_scope [initFC (("pkg/core.py").data) (("pkg/core.py").data)] :=
  ⟨by decide, by decide,
    claim_C10 duplicatePathChanges (initFC (("pkg/core.py").data) (("pkg/core.py").data))
      (("pkg/core.py").data) (by decide) (by decide) (by decide)⟩

/-! ## Claim C7: case of the scope token -/

/-- Counterexample to claim C7 as stated: the status-based scope detector
of scripts/run.py returns the first path segment verbatim, so a staged
file under `API/` yields the scope `API`, which contains uppercase
characters. -/
theorem claim_C7_counterexample :
    detect_scope_run upperStaged = ("API").data ∧
      (detect_scope_run upperStaged).any (fun c => isAsciiUpper c) = true := by
  constructor
  · decide
  · decide

/-- Claim C7 as amended: the diff-based scope detector of
scripts/analyze.py always returns the empty string or an all-lowercase
token (every return path lowercases); the status-based detector of
scripts/run.py does not lowercase and may return a token with uppercase
characters. -/
theorem claim_C7_amended (files : List FileChange) :
    (detect_scope files).all (fun c => ! isAsciiUpper c) = true := by
  unfold detect_scope
  by_cases h : files = []
  · rw [if_pos h]
    rfl
  · rw [if_neg h]
    generalize changeCounts files = cc
    match cc with
    | [] => rfl
    | [(p, v)] =>
      unfold singleScope
      dsimp only
      split
      · exact lowerStr_notUpper _
      · exact lowerStr_notUpper _
    | x :: y :: rest =>
      dsimp only
      split
      · exact lowerStr_notUpper _
      · split
        · exact lowerStr_notUpper _
        · exact lowerStr_notUpper _

/-! ## Claim C4: the README-only diff -/

/-- Counterexample to claim C4 as stated: for the diff whose only changed
file is `README.md`, the diff-based scope detector of scripts/analyze.py
returns `readme` (the extension-stripped filename, lowercased), not the
empty string. -/
theorem claim_C4_counterexample :
    detect_scope (parse_diff readmeDiff) = ("readme").data ∧
      detect_scope (parse_diff readmeDiff) ≠ [] := by
  constructor
  · decide
  · decide

/-- Claim C4 as amended: a README.md-only diff is classified `docs` with
subject `update README.md` by both pipelines; the scope is `readme` under
the diff-based detector (scripts/analyze.py) and the empty string under
the status-based detector (scripts/run.py). -/
theorem claim_C4_amended :
    detect_type (parse_diff readmeDiff) = ("docs").data ∧
    detect_scope (parse_diff readmeDiff) = ("readme").data ∧
    detect_summary (parse_diff readmeDiff) (("docs").data) = ("update README.md").data ∧
    detect_type_run readmeStaged readmeDiff = ("docs").data ∧
    detect_scope_run readmeStaged = [] ∧
    generate_subject readmeStaged (("docs").data) = ("update README.md").data := by
  refine ⟨by decide, by decide, by decide, by decide, by decide, by decide⟩

/-! ## Claim C2: the whole-diff refactor rule -/

/-- Counterexample to claim C2 as stated: with 10 added and 12 removed
lines and no earlier rule firing, the whole-diff detector returns
`refactor` although the removed count does not exceed the added count by
more than 5 — the actual condition is `removed > added and removed > 5`. -/
theorem claim_C2_counterexample :
    detect_type_run plainStaged shrinkDiff = ("refactor").data ∧
    ¬ (removedCountRun shrinkDiff > addedCountRun shrinkDiff + 5) ∧
    plainStaged ≠ [] ∧
    allNewRun plainStaged = false ∧ allTestRun plainStaged = false ∧
    allDocRun plainStaged = false ∧ allConfigRun plainStaged = false ∧
    fixKwHit shrinkDiff = false ∧ perfKwHit shrinkDiff = false := by
  refine ⟨by decide, by decide, by decide, by decide, by decide, by decide, by decide,
    by decide, by decide⟩

/-- Claim C2 as amended: when none of the earlier whole-diff rules fires
(the file list is non-empty and the all-new, all-test, all-doc,
all-config, fix-keyword and perf-keyword rules are all false), the
detector returns `refactor` exactly when the removed line count both
exceeds the added line count and exceeds 5, and `feat` otherwise. -/
theorem claim_C2_amended (files : List StagedFile) (diff_content : List Char)
    (hne : files ≠ []) (h1 : allNewRun files = false) (h2 : allTestRun files = false)
    (h3 : allDocRun files = false) (h4 : allConfigRun files = false)
    (h5 : fixKwHit diff_content = false) (h6 : perfKwHit diff_content = false) :
    detect_type_run files diff_content =
      (if removedCountRun diff_content > addedCountRun diff_content ∧
          removedCountRun diff_content > 5
       then ("refactor").data else ("feat").data) := by
  unfold detect_type_run
  rw [if_neg hne]
  rw [h1, h2, h3, h4, h5, h6]
  simp

/-- Witness for the amended claim C2 at the concrete shrinking diff. -/
theorem claim_C2_witness :
    plainStaged ≠ [] ∧
    detect_type_run plainStaged shrinkDiff =
      (if removedCountRun shrinkDiff > addedCountRun shrinkDiff ∧
          removedCountRun shrinkDiff > 5
       then ("refactor").data else ("feat").data) :=
  ⟨by decide,
    claim_C2_amended plainStaged shrinkDiff (by decide) (by decide) (by decide)
      (by decide) (by decide) (by decide) (by decide)⟩

/-! ## Claim C6: multi-file subject clauses -/

/-- Counterexample to claim C6 as stated: for 2 added, 1 deleted and 3
modified staged files and a type that is not docs, `generate_subject`
(scripts/run.py) joins the clauses in the order add / update / remove, not
add / remove / update. -/
theorem claim_C6_counterexample :
    generate_subject sixStaged (("feat").data) =
      ("add 2 files, update 3 files, remove 1 file").data ∧
    generate_subject sixStaged (("feat").data) ≠
      ("add 2 files, remove 1 file, update 3 files").data := by
  refine ⟨by decide, by decide⟩

/-- Claim C6 as amended: for two or more files, `detect_summary`
(scripts/analyze.py) joins the non-zero clauses in the order add / remove
/ update regardless of the type, and on 2 new, 1 deleted, 3 modified
records yields `add 2 files, remove 1 file, update 3 files`;
`generate_subject` (scripts/run.py), for a type that is neither docs nor
test, joins the non-zero clauses in the order add / update / remove. -/
theorem claim_C6_amended :
    (∀ (files : List FileChange) (t : List Char), 2 ≤ files.length →
        detect_summary files t = multi_summary_spec files) ∧
    (∀ (files : List StagedFile) (t : List Char), 2 ≤ files.length →
        t ≠ ("docs").data → t ≠ ("test").data →
        generate_subject files t = run_multi_subject_spec files) ∧
    detect_summary sixChanges (("feat").data) =
      ("add 2 files, remove 1 file, update 3 files").data := by
  refine ⟨?_, ?_, by decide⟩
  · intro files t hlen
    cases files with
    | nil => simp at hlen
    | cons f1 tl =>
      cases tl with
      | nil => simp at hlen
      | cons f2 rest => rfl
  · intro files t hlen hd ht
    cases files with
    | nil => simp at hlen
    | cons f1 tl =>
      cases tl with
      | nil => simp at hlen
      | cons f2 rest =>
        unfold generate_subject
        dsimp only
        rw [if_neg hd, if_neg ht]
        rfl

/-! ## Claim C3: the bug-keyword predicates -/

/-- Every bug keyword is non-empty. -/
theorem bug_keyword_ne_nil (kw : List Char) (h : kw ∈ BUG_KEYWORDS) : kw ≠ [] := by
  fin_cases h <;> decide

/-- The after-boundary test, read through `head?`. -/
theorem afterOk_iff (post : List Char) :
    afterOk post = true ↔ (∀ c, post.head? = some c → isWordChar c = false) := by
  cases post with
  | nil => simp [afterOk]
  | cons c rest => simp [afterOk]

/-- `getLast?` of a cons with a non-empty tail. -/
theorem getLast?_cons_some (c d : Char) (pre : List Char)
    (h : pre.getLast? = some d) : (c :: pre).getLast? = some d := by
  cases pre with
  | nil => simp at h
  | cons a rest => rw [List.getLast?_cons_cons]; exact h

/-- The scan of `bugScanAux` finds a match exactly when the scanned text
decomposes around a whole-word, case-insensitive keyword occurrence; the
character just before the scanned text is `prev`. -/
theorem bugScanAux_iff : ∀ (s : List Char) (prev : Option Char),
    bugScanAux prev s = true ↔
      ∃ pre w post kw, kw ∈ BUG_KEYWORDS ∧ s = pre ++ w ++ post ∧ lowerStr w = kw ∧
        ((pre = [] ∧ prevOk prev = true) ∨
          (∃ c, pre.getLast? = some c ∧ isWordChar c = false)) ∧
        (∀ c, post.head? = some c → isWordChar c = false) := by
  intro s
  induction s with
  | nil =>
    intro prev
    constructor
    · intro h
      simp [bugScanAux] at h
    · rintro ⟨pre, w, post, kw, hkw, heq, hlw, -, -⟩
      have hw : w = [] := by
        rcases pre with - | ⟨a, pre⟩
        · rcases w with - | ⟨b, w⟩
          · rfl
          · simp at heq
        · simp at heq
      rw [hw] at hlw
      rw [← hlw] at hkw
      exact absurd hkw (by decide)
  | cons c rest ih =>
    intro prev
    rw [show bugScanAux prev (c :: rest) =
        (matchHere prev (c :: rest) || bugScanAux (some c) rest) from rfl,
      Bool.or_eq_true]
    constructor
    · rintro (hm | hr)
      · unfold matchHere at hm
        rw [Bool.and_eq_true, List.any_eq_true] at hm
        obtain ⟨hprev, kw, hkw, hmatch⟩ := hm
        rw [Bool.and_eq_true] at hmatch
        obtain ⟨hci, haft⟩ := hmatch
        refine ⟨[], (c :: rest).take kw.length, (c :: rest).drop kw.length, kw, hkw,
          by rw [List.nil_append, List.take_append_drop], ?_, Or.inl ⟨rfl, hprev⟩, ?_⟩
        · exact of_decide_eq_true hci
        · exact (afterOk_iff _).mp haft
      · obtain ⟨pre, w, post, kw, hkw, heq, hlw, hbound, haft⟩ := (ih (some c)).mp hr
        refine ⟨c :: pre, w, post, kw, hkw, by rw [heq]; rfl, hlw, ?_, haft⟩
        rcases hbound with ⟨hpre, hprev⟩ | ⟨d, hd, hwd⟩
        · subst hpre
          refine Or.inr ⟨c, rfl, ?_⟩
          simpa [prevOk] using hprev
        · exact Or.inr ⟨d, getLast?_cons_some c d pre hd, hwd⟩
    · rintro ⟨pre, w, post, kw, hkw, heq, hlw, hbound, haft⟩
      cases pre with
      | nil =>
        left
        rw [List.nil_append] at heq
        have hwlen : w.length = kw.length := by
          rw [← hlw, lowerStr_length]
        have hprev : prevOk prev = true := by
          rcases hbound with ⟨-, hp⟩ | ⟨d, hd, -⟩
          · exact hp
          · simp at hd
        unfold matchHere
        rw [Bool.and_eq_true, List.any_eq_true]
        refine ⟨hprev, kw, hkw, ?_⟩
        rw [Bool.and_eq_true]
        constructor
        · have htake : (c :: rest).take kw.length = w := by
            rw [heq, ← hwlen, List.take_left]
          rw [show ciMatchAt kw (c :: rest) =
            decide (lowerStr ((c :: rest).take kw.length) = kw) from rfl, htake]
          exact decide_eq_true hlw
        · have hdrop : (c :: rest).drop kw.length = post := by
            rw [heq, ← hwlen, List.drop_left]
          rw [hdrop]
          exact (afterOk_iff _).mpr haft
      | cons a pre2 =>
        right
        rw [List.cons_append, List.cons_append] at heq
        injection heq with hac hrest
        subst hac
        apply (ih (some c)).mpr
        refine ⟨pre2, w, post, kw, hkw, hrest, hlw, ?_, haft⟩
        rcases hbound with ⟨hpre, -⟩ | ⟨d, hd, hwd⟩
        · cases hpre
        · cases pre2 with
          | nil =>
            left
            refine ⟨rfl, ?_⟩
            simp at hd
            subst hd
            simp [prevOk, hwd]
          | cons b pre3 =>
            right
            refine ⟨d, ?_, hwd⟩
            rw [List.getLast?_cons_cons] at hd
            exact hd

/-- Counterexample to claim C3 as stated: the whole-diff caller
(scripts/run.py) tests plain substring containment over its seven-keyword
set, so a diff whose only occurrence of `fix` is inside the longer word
`prefix` satisfies its predicate — and drives the detector to `fix` —
although no whole-word occurrence of any of the eleven keywords exists. -/
theorem claim_C3_counterexample :
    fixKwHit (("the prefix word").data) = true ∧
    bug_keyword_search (("the prefix word").data) = false ∧
    detect_type_run plainStaged (("the prefix word").data) = ("fix").data := by
  refine ⟨by decide, by decide, by decide⟩

/-- Claim C3 as amended: the added-lines caller (scripts/analyze.py)
matches one of the eleven keywords fix, bug, error, issue, patch, crash,
fault, defect, broken, wrong, incorrect as a whole word,
case-insensitively — a keyword inside a longer word does not match; the
whole-diff caller (scripts/run.py) instead tests plain lowercase substring
containment of the seven keywords fix, bug, error, patch, issue, crash,
broken. -/
theorem claim_C3_amended :
    (∀ t : List Char, bug_keyword_search t = true ↔
      ∃ pre w post kw, kw ∈ BUG_KEYWORDS ∧ t = pre ++ w ++ post ∧ lowerStr w = kw ∧
        (∀ c, pre.getLast? = some c → isWordChar c = false) ∧
        (∀ c, post.head? = some c → isWordChar c = false)) ∧
    (∀ t : List Char, fixKwHit t = true ↔
      ∃ kw ∈ FIX_KEYWORDS, ∃ pre post, lowerStr t = pre ++ kw ++ post) := by
  constructor
  · intro t
    rw [show bug_keyword_search t = bugScanAux none t from rfl, bugScanAux_iff]
    constructor
    · rintro ⟨pre, w, post, kw, hkw, heq, hlw, hbound, haft⟩
      refine ⟨pre, w, post, kw, hkw, heq, hlw, ?_, haft⟩
      rcases hbound with ⟨hpre, -⟩ | ⟨d, hd, hwd⟩
      · subst hpre
        intro c hc
        simp at hc
      · intro c hc
        rw [hd] at hc
        rw [Option.some.injEq] at hc
        rw [← hc]
        exact hwd
    · rintro ⟨pre, w, post, kw, hkw, heq, hlw, hlast, haft⟩
      refine ⟨pre, w, post, kw, hkw, heq, hlw, ?_, haft⟩
      cases hpre : pre.getLast? with
      | none =>
        left
        refine ⟨by simpa using hpre, rfl⟩
      | some d =>
        exact Or.inr ⟨d, rfl, hlast d hpre⟩
  · intro t
    simp only [fixKwHit, List.any_eq_true, containsSub_iff]
